import Mathlib

/-!
Shallow embedding of the analysis core of `codegenome-x`:

* the in-memory `Graph` store (`packages/core/src/graph.ts`): `addNode`,
  `addEdge`, adjacency queries, `removeNodeSimulation`,
  `calculateImpactScore`, `calculateDependencyDepth`, `getStats`;
* the `UnusedDetector.findUnusedNodes` pass;
* the `CacheEngine` change detection (`packages/core/src/cache/cache-engine.ts`).

JavaScript `Map`s are embedded as association lists in insertion order
(`set` replaces the value of an existing key in place, otherwise appends),
and `Set<string>`s as duplicate-free lists in insertion order (`add`
appends when the element is absent).  SHA-256 hashing is an external
collaborator (node's `crypto`); it is embedded as an arbitrary function
parameter `hashFn`.  TypeScript `number`s that enter the score arithmetic
are embedded as rationals.
-/

namespace CodeGenome

/-- JS `Map.get`: value at the first matching key. -/
def mget {α : Type} : List (String × α) → String → Option α
  | [], _ => none
  | p :: rest, k => if p.1 = k then some p.2 else mget rest k

/-- JS `Map.set`: replace the value of an existing key in place, else append. -/
def mset {α : Type} : List (String × α) → String → α → List (String × α)
  | [], k, v => [(k, v)]
  | p :: rest, k, v => if p.1 = k then (k, v) :: rest else p :: mset rest k v

/-- JS `Set.add` on a set represented as a duplicate-free list in insertion
order: append when absent. -/
def setAdd (s : List String) (x : String) : List String :=
  if x ∈ s then s else s ++ [x]

/-- One graph node (`GraphNode` in `types.ts`).  The `metadata` bag holds
`unknown` values and is never read by any of the operations embedded here,
so it is dropped.  `dependencies`/`dependents` are JS `Set<string>`s. -/
structure GraphNode where
  id : String
  type : String
  name : String
  filePath : String
  line : Nat
  column : Nat
  loc : ℚ
  dependencies : List String
  dependents : List String
  deriving DecidableEq, Repr

/-- One graph edge (`GraphEdge` in `types.ts`); `from` is a Lean keyword, so
the endpoint fields are named `fromId`/`toId`.  The unread `metadata` bag is
dropped. -/
structure GraphEdge where
  fromId : String
  toId : String
  type : String
  deriving DecidableEq, Repr

/-- The `factors` component of an `ImpactScore`. -/
structure ImpactFactors where
  loc : ℚ
  fanOut : Nat
  fanIn : Nat
  dependencyDepth : Nat
  deriving DecidableEq, Repr

/-- Embedding of `ImpactScore` in `types.ts`; `level` is one of the string literals
`"Low" | "Medium" | "High" | "Critical"`. -/
structure ImpactScore where
  score : ℚ
  level : String
  factors : ImpactFactors
  deriving DecidableEq, Repr

/-- Embedding of `RemovalSimulation` in `types.ts`; the four id collections are JS sets
converted by `Array.from`, embedded as duplicate-free lists. -/
structure RemovalSimulation where
  nodeId : String
  affectedNodes : List String
  orphanedNodes : List String
  brokenEndpoints : List String
  servicesWithoutProvider : List String
  impactScore : ImpactScore
  deriving DecidableEq, Repr

/-- The `Graph` class state: `nodes : Map<string, GraphNode>`,
`edges : Map<string, GraphEdge[]>` (outgoing buckets keyed by source id),
`nodeTypes : Map<string, Set<string>>`. -/
structure Graph where
  nodes : List (String × GraphNode)
  edges : List (String × List GraphEdge)
  nodeTypes : List (String × List String)
  deriving DecidableEq, Repr

/-- Embedding of `new Graph()`. -/
def Graph.empty : Graph := ⟨[], [], []⟩

/-- Embedding of `Graph.addNode`: insert/replace the node by id, record it in the
per-type index, and initialize an empty outgoing-edge bucket if absent. -/
def Graph.addNode (g : Graph) (node : GraphNode) : Graph :=
  { nodes := mset g.nodes node.id node
    edges := if (mget g.edges node.id).isSome then g.edges else mset g.edges node.id []
    nodeTypes := mset g.nodeTypes node.type (setAdd ((mget g.nodeTypes node.type).getD []) node.id) }

/-- In-place mutation of the node object stored at `id` (JS objects are
updated through the reference held in the `nodes` map). -/
def Graph.modifyNode (g : Graph) (id : String) (f : GraphNode → GraphNode) : Graph :=
  match mget g.nodes id with
  | some n => { g with nodes := mset g.nodes id (f n) }
  | none => g

/-- Embedding of `Graph.addEdge`: throws `Node not found: <missing endpoint>` when either
endpoint id is absent (leaving the state untouched); otherwise appends the
edge to the source bucket and mirrors it into both adjacency sets.  A
throwing method is embedded as a pair of the thrown/normal outcome and the
state at return time. -/
def Graph.addEdge (g : Graph) (fromId toId type : String) : Except String Unit × Graph :=
  if mget g.nodes fromId = none ∨ mget g.nodes toId = none then
    (.error ("Node not found: " ++ (if mget g.nodes fromId = none then fromId else toId)), g)
  else
    let edge : GraphEdge := ⟨fromId, toId, type⟩
    let fromEdges := (mget g.edges fromId).getD []
    let g1 : Graph := { g with edges := mset g.edges fromId (fromEdges ++ [edge]) }
    let g2 := g1.modifyNode fromId (fun n => { n with dependencies := setAdd n.dependencies toId })
    let g3 := g2.modifyNode toId (fun n => { n with dependents := setAdd n.dependents fromId })
    (.ok (), g3)

/-- Embedding of `Graph.getNode`. -/
def Graph.getNode (g : Graph) (id : String) : Option GraphNode :=
  mget g.nodes id

/-- Embedding of `Graph.getDependencies`: the node's forward adjacency set, empty when
the node is unknown. -/
def Graph.getDependencies (g : Graph) (nodeId : String) : List String :=
  match mget g.nodes nodeId with
  | none => []
  | some node => node.dependencies

/-- Embedding of `Graph.getDependents`: the node's backward adjacency set, empty when
the node is unknown. -/
def Graph.getDependents (g : Graph) (nodeId : String) : List String :=
  match mget g.nodes nodeId with
  | none => []
  | some node => node.dependents

/-- Embedding of `Graph.getAllNodes`. -/
def Graph.getAllNodes (g : Graph) : List GraphNode :=
  g.nodes.map (·.2)

/-- Embedding of `Graph.getAllEdges`: concatenation of every outgoing bucket, in map
order. -/
def Graph.getAllEdges (g : Graph) : List GraphEdge :=
  g.edges.foldl (fun allEdges p => allEdges ++ p.2) []

/-- The fold at the heart of `calculateDependencyDepth`: the depth-first
walk marks every node visited once globally (`visited`) and keeps the
maximum depth reached.  The walk of the source recurses directly; the
embedding passes explicit fuel, and `calculateDependencyDepth` hands it
enough fuel that it never runs out (proved in `dfsDepth_fuel_stable`). -/
def Graph.dfsDepth (g : Graph) : Nat → String → Nat → List String × Nat → List String × Nat
  | 0, _, _, st => st
  | fuel + 1, currentId, depth, (visited, maxDepth) =>
    if currentId ∈ visited then (visited, maxDepth)
    else
      (g.getDependencies currentId).foldl
        (fun st depId => g.dfsDepth fuel depId (depth + 1) st)
        (visited ++ [currentId], max maxDepth depth)

/-- Ids that can ever enter `visited`: the start node plus every id in any
stored node's dependency set. -/
def Graph.depUniverse (g : Graph) (nodeId : String) : List String :=
  nodeId :: g.nodes.foldl (fun acc p => acc ++ p.2.dependencies) []

/-- Embedding of `Graph.calculateDependencyDepth`: depth-first walk from `nodeId` with a
global visited set, returning the maximum depth reached. -/
def Graph.calculateDependencyDepth (g : Graph) (nodeId : String) : Nat :=
  (g.dfsDepth ((g.depUniverse nodeId).length + 1) nodeId 0 ([], 0)).2

/-- Embedding of `Graph.calculateImpactScore`:
`score = loc*0.4 + fanOut*3 + fanIn*2 + dependencyDepth*2` with the
`Low/Medium/High/Critical` threshold ladder. -/
def Graph.calculateImpactScore (g : Graph) (node : GraphNode) : ImpactScore :=
  let fanOut := node.dependencies.length
  let fanIn := node.dependents.length
  let dependencyDepth := g.calculateDependencyDepth node.id
  let score : ℚ := node.loc * (0.4 : ℚ) + fanOut * 3 + fanIn * 2 + dependencyDepth * 2
  let level : String :=
    if score < 10 then "Low"
    else if score < 50 then "Medium"
    else if score < 100 then "High"
    else "Critical"
  { score := score
    level := level
    factors := ⟨node.loc, fanOut, fanIn, dependencyDepth⟩ }

/-- Step of the orphaned-node sweep of `removeNodeSimulation`: a dependency
is orphaned when it exists and `nodeId` is its only dependent. -/
def orphanStep (g : Graph) (nodeId : String) (acc : List String) (depId : String) : List String :=
  match mget g.nodes depId with
  | some depNode =>
    if depNode.dependents.length = 1 ∧ nodeId ∈ depNode.dependents then setAdd acc depId else acc
  | none => acc

/-- Step of the broken-endpoint sweep of `removeNodeSimulation`: collect
dependents whose node exists and has type `"endpoint"`. -/
def endpointStep (g : Graph) (acc : List String) (depId : String) : List String :=
  match mget g.nodes depId with
  | some depNode => if depNode.type = "endpoint" then setAdd acc depId else acc
  | none => acc

/-- Step of the services-without-provider sweep of `removeNodeSimulation`:
collect dependents whose node exists and has type `"service"`. -/
def serviceStep (g : Graph) (acc : List String) (depId : String) : List String :=
  match mget g.nodes depId with
  | some depNode => if depNode.type = "service" then setAdd acc depId else acc
  | none => acc

/-- Embedding of `Graph.removeNodeSimulation`: throws `Node not found` for an unknown
id; otherwise reports, without touching the state, the dependents, the
dependencies that would lose their only referrer, the endpoints among the
dependents (plus the node itself when it is an endpoint), the service
dependents when the node is a provider, and the node's impact score. -/
def Graph.removeNodeSimulation (g : Graph) (nodeId : String) :
    Except String RemovalSimulation × Graph :=
  match mget g.nodes nodeId with
  | none => (.error ("Node not found: " ++ nodeId), g)
  | some node =>
    let dependents := g.getDependents nodeId
    let dependencies := g.getDependencies nodeId
    let affectedNodes := dependents.foldl setAdd []
    let orphanedNodes := dependencies.foldl (orphanStep g nodeId) []
    let brokenEndpoints :=
      dependents.foldl (endpointStep g) (if node.type = "endpoint" then setAdd [] nodeId else [])
    let servicesWithoutProvider :=
      if node.type = "provider" then dependents.foldl (serviceStep g) [] else []
    let impactScore := g.calculateImpactScore node
    (.ok { nodeId := nodeId
           affectedNodes := affectedNodes
           orphanedNodes := orphanedNodes
           brokenEndpoints := brokenEndpoints
           servicesWithoutProvider := servicesWithoutProvider
           impactScore := impactScore }, g)

/-- Embedding of `Graph.getStats` result record. -/
structure GraphStats where
  totalNodes : Nat
  totalEdges : Nat
  nodeTypes : List (String × Nat)
  averageImpactScore : ℚ
  deriving DecidableEq, Repr

/-- Embedding of `Graph.getStats`. -/
def Graph.getStats (g : Graph) : GraphStats :=
  let nodes := g.getAllNodes
  let edges := g.getAllEdges
  let nodeTypes := g.nodeTypes.map (fun p => (p.1, p.2.length))
  let averageImpactScore : ℚ :=
    if nodes.length > 0 then
      (nodes.foldl (fun sum node => sum + (g.calculateImpactScore node).score) 0) / nodes.length
    else 0
  { totalNodes := nodes.length
    totalEdges := edges.length
    nodeTypes := nodeTypes
    averageImpactScore := averageImpactScore }

/-! ## Unused detector (`UnusedDetector.findUnusedNodes`) -/

/-- Node types that are valid entry points with zero incoming edges. -/
def entryPointTypes : List String := ["symfony_route", "client_call", "api_endpoint"]

/-- The incoming-edge counter of `findUnusedNodes`: every node id starts at
0, then every edge increments the count of its target. -/
def buildIncoming (nodes : List GraphNode) (edges : List GraphEdge) : List (String × Nat) :=
  let init := nodes.foldl (fun m node => mset m node.id 0) []
  edges.foldl (fun m edge => mset m edge.toId ((mget m edge.toId).getD 0 + 1)) init

/-- Embedding of `UnusedDetector.findUnusedNodes`: nodes with zero incoming edges whose
type is not in the entry-point allow-list, in node order. -/
def findUnusedNodes (nodes : List GraphNode) (edges : List GraphEdge) : List GraphNode :=
  let incomingEdges := buildIncoming nodes edges
  nodes.foldl
    (fun unused node =>
      if (mget incomingEdges node.id).getD 0 = 0 ∧ node.type ∉ entryPointTypes then
        unused ++ [node]
      else unused)
    []

/-! ## Incremental cache (`CacheEngine`) -/

/-- Embedding of `CacheEntry` in `cache-engine.ts`. -/
structure CacheEntry where
  hash : String
  nodes : List String
  edges : List String
  timestamp : Nat
  deriving DecidableEq, Repr

/-- Embedding of `CacheData` in `cache-engine.ts`; `files` is a JS record keyed by file
path. -/
structure CacheData where
  version : String
  timestamp : Nat
  files : List (String × CacheEntry)
  deriving DecidableEq, Repr

/-- Embedding of `createEmptyCache` (the `Date.now()` stamp is passed in). -/
def createEmptyCache (now : Nat) : CacheData :=
  { version := "1.0.0", timestamp := now, files := [] }

/-- Embedding of `CacheEngine.hasChanged`: a file changed when it has no stored entry or
the stored hash differs from the fresh content hash.  `hashFn` stands for
the external SHA-256 collaborator. -/
def hasChanged (hashFn : String → String) (cache : CacheData) (filePath content : String) : Bool :=
  let hash := hashFn content
  match mget cache.files filePath with
  | none => true
  | some cached => cached.hash ≠ hash

/-- Embedding of `CacheEngine.setCacheEntry` (the `Date.now()` stamp is passed in). -/
def setCacheEntry (hashFn : String → String) (cache : CacheData) (filePath content : String)
    (nodes edges : List String) (now : Nat) : CacheData :=
  { cache with
    files := mset cache.files filePath
      { hash := hashFn content, nodes := nodes, edges := edges, timestamp := now } }

/-- Embedding of `CacheEngine.getChangedFiles`: current files that changed or are new,
followed by stored paths absent from the current file set. -/
def getChangedFiles (hashFn : String → String) (cache : CacheData)
    (currentFiles : List (String × String)) : List String :=
  let changedFiles := currentFiles.foldl
    (fun acc pc => if hasChanged hashFn cache pc.1 pc.2 then acc ++ [pc.1] else acc) []
  cache.files.foldl
    (fun acc entry =>
      if ¬ currentFiles.any (fun pc => pc.1 = entry.1) then acc ++ [entry.1] else acc)
    changedFiles

/-! ## Association-list and set toolbox -/

theorem mget_mset_self {α : Type} (m : List (String × α)) (k : String) (v : α) :
    mget (mset m k v) k = some v := by
  induction m with
  | nil => simp [mget, mset]
  | cons p rest ih =>
    by_cases h : p.1 = k
    · simp [mget, mset, h]
    · simp [mget, mset, h, ih]

theorem mget_mset_ne {α : Type} (m : List (String × α)) (k k' : String) (v : α)
    (h : k' ≠ k) : mget (mset m k v) k' = mget m k' := by
  have hk : ¬ k = k' := fun hk => h hk.symm
  induction m with
  | nil => simp [mget, mset, hk]
  | cons p rest ih =>
    by_cases hp : p.1 = k
    · have hp' : ¬ p.1 = k' := fun hh => h (hh ▸ hp)
      simp [mget, mset, hp, hp', hk]
    · by_cases hp' : p.1 = k'
      · simp [mget, mset, hp, hp', h]
      · simp [mget, mset, hp, hp', ih]

theorem mget_mem {α : Type} {m : List (String × α)} {k : String} {v : α}
    (h : mget m k = some v) : (k, v) ∈ m := by
  induction m with
  | nil => simp [mget] at h
  | cons p rest ih =>
    obtain ⟨a, b⟩ := p
    by_cases hp : a = k
    · simp [mget, hp] at h
      subst hp
      subst h
      exact List.mem_cons_self _ _
    · simp [mget, hp] at h
      exact List.mem_cons_of_mem _ (ih h)

theorem mget_isSome_iff {α : Type} (m : List (String × α)) (k : String) :
    (mget m k).isSome = true ↔ k ∈ m.map Prod.fst := by
  induction m with
  | nil => simp [mget]
  | cons p rest ih =>
    by_cases hp : p.1 = k
    · simp [mget, hp]
    · have hk : ¬ k = p.1 := fun hh => hp hh.symm
      rw [List.map_cons]
      simp only [mget, hp, if_false, List.mem_cons, ih, hk, false_or]

theorem mget_eq_none_iff {α : Type} (m : List (String × α)) (k : String) :
    mget m k = none ↔ k ∉ m.map Prod.fst := by
  rw [← mget_isSome_iff]
  cases mget m k <;> simp

theorem map_fst_mset {α : Type} (m : List (String × α)) (k : String) (v : α) :
    (mset m k v).map Prod.fst =
      if k ∈ m.map Prod.fst then m.map Prod.fst else m.map Prod.fst ++ [k] := by
  induction m with
  | nil => simp [mset]
  | cons p rest ih =>
    by_cases hp : p.1 = k
    · simp [mset, hp]
    · have hk : ¬ k = p.1 := fun hh => hp hh.symm
      simp only [mset, hp, if_false, List.map_cons, ih, List.mem_cons, hk, false_or]
      by_cases hmem : k ∈ rest.map Prod.fst <;> simp [hmem]

theorem mem_setAdd (s : List String) (x y : String) :
    y ∈ setAdd s x ↔ y ∈ s ∨ y = x := by
  unfold setAdd
  by_cases h : x ∈ s
  · simp [h]
    intro hy
    exact hy ▸ h
  · simp [h]

theorem setAdd_nodup {s : List String} (h : s.Nodup) (x : String) : (setAdd s x).Nodup := by
  unfold setAdd
  by_cases hx : x ∈ s
  · simpa [hx]
  · simp only [hx, if_false, List.nodup_append, List.nodup_cons, List.not_mem_nil,
      not_false_iff, List.nodup_nil, and_true, true_and, h]
    intro a ha hax
    rw [List.mem_singleton] at hax
    exact hx (hax ▸ ha)

theorem count_setAdd_self {s : List String} (h : s.Nodup) (x : String) :
    (setAdd s x).count x = 1 := by
  unfold setAdd
  by_cases hx : x ∈ s
  · simp only [hx, if_true]
    exact List.count_eq_one_of_mem h hx
  · simp [hx, List.count_eq_zero.2 hx]

theorem setAdd_of_mem {s : List String} {x : String} (h : x ∈ s) : setAdd s x = s := by
  simp [setAdd, h]

theorem foldl_append_eq_join {β γ : Type} (l : List β) (f : β → List γ) :
    ∀ init : List γ, l.foldl (fun acc p => acc ++ f p) init = init ++ (l.map f).flatten := by
  induction l with
  | nil => simp
  | cons p rest ih => intro init; simp [ih]

theorem getAllEdges_eq_join (g : Graph) :
    g.getAllEdges = (g.edges.map (·.2)).flatten := by
  unfold Graph.getAllEdges
  rw [foldl_append_eq_join]
  simp

/-! ## C2: referential integrity with atomic failure -/

/-- C2.  `addEdge(from, to, type)` succeeds exactly when both endpoint ids
exist; when either is absent it throws `Node not found: <missing endpoint>`
(naming `from` when `from` is missing, else `to`) and returns the state
unchanged; `removeNodeSimulation(nodeId)` likewise throws `Node not found:
<nodeId>` and leaves the state unchanged when `nodeId` has no node. -/
theorem addEdge_error_atomic (g : Graph) (fromId toId ty nodeId : String) :
    (mget g.nodes fromId = none ∨ mget g.nodes toId = none →
      g.addEdge fromId toId ty =
        (.error ("Node not found: " ++ (if mget g.nodes fromId = none then fromId else toId)), g))
    ∧ (mget g.nodes fromId ≠ none → mget g.nodes toId ≠ none →
        (g.addEdge fromId toId ty).1 = .ok ())
    ∧ (mget g.nodes nodeId = none →
        g.removeNodeSimulation nodeId = (.error ("Node not found: " ++ nodeId), g)) := by
  refine ⟨fun h => ?_, fun h1 h2 => ?_, fun h => ?_⟩
  · simp [Graph.addEdge, h]
  · simp [Graph.addEdge, h1, h2]
  · simp [Graph.removeNodeSimulation, h]

/-- The single-node graph used by the C2 witness. -/
def graphX : Graph :=
  Graph.empty.addNode
    { id := "x", type := "function", name := "x", filePath := "f.ts", line := 1, column := 0,
      loc := 1, dependencies := [], dependents := [] }

/-- Witness for C2 on a concrete graph holding only node `"x"`. -/
theorem addEdge_error_atomic_witness :
    graphX.addEdge "x" "y" "calls" = (.error "Node not found: y", graphX)
    ∧ graphX.removeNodeSimulation "z" = (.error "Node not found: z", graphX) := by
  have h := addEdge_error_atomic graphX "x" "y" "calls" "z"
  constructor
  · rw [h.1 (Or.inr (by decide))]
    have hx : ¬ (mget graphX.nodes "x" = none) := by decide
    rw [if_neg hx]
    rfl
  · rw [h.2.2 (by decide)]
    rfl

/-! ## C8: removal simulation is read-only -/

/-- C8.  `removeNodeSimulation` never changes the graph state: the state
component of the embedded call (the value of `this` at return or throw
time) is the input graph, for every graph and every node id, so the node
map, the edge buckets and every adjacency set are untouched. -/
theorem removeNodeSimulation_readonly (g : Graph) (nodeId : String) :
    (g.removeNodeSimulation nodeId).2 = g := by
  unfold Graph.removeNodeSimulation
  cases mget g.nodes nodeId <;> rfl

/-! ## C5: impact score formula and levels -/

/-- C5.  For every node stored in the graph, the computed impact score is
`loc*0.4 + |dependencies|*3 + |dependents|*2 + dependencyDepth*2`, and the
level is `Low` exactly on score < 10, `Medium` on [10,50), `High` on
[50,100) and `Critical` on score ≥ 100. -/
theorem calculateImpactScore_formula (g : Graph) (id : String) (n : GraphNode)
    (_h : mget g.nodes id = some n) :
    (g.calculateImpactScore n).score =
      n.loc * (0.4 : ℚ) + (n.dependencies.length : ℚ) * 3 + (n.dependents.length : ℚ) * 2
        + (g.calculateDependencyDepth n.id : ℚ) * 2
    ∧ ((g.calculateImpactScore n).level = "Low" ↔ (g.calculateImpactScore n).score < 10)
    ∧ ((g.calculateImpactScore n).level = "Medium" ↔
        10 ≤ (g.calculateImpactScore n).score ∧ (g.calculateImpactScore n).score < 50)
    ∧ ((g.calculateImpactScore n).level = "High" ↔
        50 ≤ (g.calculateImpactScore n).score ∧ (g.calculateImpactScore n).score < 100)
    ∧ ((g.calculateImpactScore n).level = "Critical" ↔
        100 ≤ (g.calculateImpactScore n).score) := by
  have hscore : (g.calculateImpactScore n).score =
      n.loc * (0.4 : ℚ) + (n.dependencies.length : ℚ) * 3 + (n.dependents.length : ℚ) * 2
        + (g.calculateDependencyDepth n.id : ℚ) * 2 := rfl
  have hlevel : (g.calculateImpactScore n).level =
      (if (g.calculateImpactScore n).score < 10 then "Low"
       else if (g.calculateImpactScore n).score < 50 then "Medium"
       else if (g.calculateImpactScore n).score < 100 then "High"
       else "Critical") := rfl
  refine ⟨hscore, ?_, ?_, ?_, ?_⟩ <;> rw [hlevel] <;>
    split_ifs with h1 h2 h3 <;> simp_all [not_lt] <;>
    first
      | linarith
      | (intro hx; linarith)

/-- A freshly extracted node: empty adjacency sets, as every analyzer
constructs them. -/
def mkNode (id ty : String) (loc : ℚ) : GraphNode :=
  { id := id, type := ty, name := id, filePath := "f.ts", line := 1, column := 0,
    loc := loc, dependencies := [], dependents := [] }

/-- Witness graph for C5: node `A` with `loc = 10`, two dependencies
(`B`, `C`), three dependents (`X`, `Y`, `Z`) and dependency depth 1. -/
def graphScore : Graph :=
  let g0 := (((((Graph.empty.addNode (mkNode "A" "service" 10)).addNode
    (mkNode "B" "service" 1)).addNode (mkNode "C" "service" 1)).addNode
    (mkNode "X" "service" 1)).addNode (mkNode "Y" "service" 1)).addNode (mkNode "Z" "service" 1)
  let g1 := (g0.addEdge "A" "B" "calls").2
  let g2 := (g1.addEdge "A" "C" "calls").2
  let g3 := (g2.addEdge "X" "A" "calls").2
  let g4 := (g3.addEdge "Y" "A" "calls").2
  (g4.addEdge "Z" "A" "calls").2

/-- The node object stored for `A` in `graphScore`. -/
def nodeAScore : GraphNode :=
  { mkNode "A" "service" 10 with dependencies := ["B", "C"], dependents := ["X", "Y", "Z"] }

/-- Witness for C5: `loc=10, fanOut=2, fanIn=3, dependencyDepth=1` gives
score `18.0` and level `Medium`. -/
theorem calculateImpactScore_formula_witness :
    mget graphScore.nodes "A" = some nodeAScore
    ∧ (graphScore.calculateImpactScore nodeAScore).score = 18
    ∧ (graphScore.calculateImpactScore nodeAScore).level = "Medium" := by
  have h := calculateImpactScore_formula graphScore "A" nodeAScore (by decide)
  have hd : graphScore.calculateDependencyDepth nodeAScore.id = 1 := by decide
  have hs : (graphScore.calculateImpactScore nodeAScore).score = 18 := by
    rw [h.1, hd]
    norm_num [nodeAScore, mkNode]
  exact ⟨by decide, hs, (h.2.2.1).mpr ⟨by rw [hs]; norm_num, by rw [hs]; norm_num⟩⟩

/-! ## C3: removal simulation contents -/

theorem mem_foldl_guard (l : List String) (q : String → Prop)
    (step : List String → String → List String)
    (hstep₁ : ∀ acc y, q y → step acc y = setAdd acc y)
    (hstep₂ : ∀ acc y, ¬ q y → step acc y = acc) :
    ∀ init x, x ∈ l.foldl step init ↔ x ∈ init ∨ (x ∈ l ∧ q x) := by
  induction l with
  | nil => simp
  | cons y rest ih =>
    intro init x
    rw [List.foldl_cons, ih]
    by_cases hq : q y
    · rw [hstep₁ init y hq]
      constructor
      · rintro (h | h)
        · rcases (mem_setAdd init y x).1 h with h' | h'
          · exact Or.inl h'
          · exact Or.inr ⟨h' ▸ List.mem_cons_self y rest, h' ▸ hq⟩
        · exact Or.inr ⟨List.mem_cons_of_mem y h.1, h.2⟩
      · rintro (h | ⟨hmem, hqx⟩)
        · exact Or.inl ((mem_setAdd init y x).2 (Or.inl h))
        · rcases List.mem_cons.1 hmem with rfl | h'
          · exact Or.inl ((mem_setAdd init x x).2 (Or.inr rfl))
          · exact Or.inr ⟨h', hqx⟩
    · rw [hstep₂ init y hq]
      constructor
      · rintro (h | h)
        · exact Or.inl h
        · exact Or.inr ⟨List.mem_cons_of_mem y h.1, h.2⟩
      · rintro (h | ⟨hmem, hqx⟩)
        · exact Or.inl h
        · rcases List.mem_cons.1 hmem with rfl | h'
          · exact absurd hqx hq
          · exact Or.inr ⟨h', hqx⟩

theorem getDependents_eq_singleton_iff (g : Graph) (x nodeId : String) :
    g.getDependents x = [nodeId] ↔
      ∃ m, mget g.nodes x = some m ∧ m.dependents.length = 1 ∧ nodeId ∈ m.dependents := by
  unfold Graph.getDependents
  cases hm : mget g.nodes x with
  | none => simp
  | some m =>
    simp only [hm, Option.some.injEq]
    constructor
    · intro hd
      exact ⟨m, rfl, by rw [hd]; simp, by rw [hd]; simp⟩
    · rintro ⟨m', rfl, h1, h2⟩
      obtain ⟨a, ha⟩ := List.length_eq_one.1 h1
      rw [ha] at h2 ⊢
      rw [List.mem_singleton] at h2
      rw [h2]

/-- C3.  For every existing node, `removeNodeSimulation` reports:
`affectedNodes` = the dependents; `orphanedNodes` = the dependencies whose
dependents set is exactly `{nodeId}`; `brokenEndpoints` = the node itself
when it has type `"endpoint"` plus the dependents of type `"endpoint"`;
`servicesWithoutProvider` = the dependents of type `"service"` exactly when
the node has type `"provider"` (empty otherwise). -/
theorem removeNodeSimulation_contents (g : Graph) (nodeId : String) (n : GraphNode)
    (h : mget g.nodes nodeId = some n) :
    ∃ sim, (g.removeNodeSimulation nodeId).1 = .ok sim
      ∧ (∀ x, x ∈ sim.affectedNodes ↔ x ∈ n.dependents)
      ∧ (∀ x, x ∈ sim.orphanedNodes ↔ x ∈ n.dependencies ∧ g.getDependents x = [nodeId])
      ∧ (∀ x, x ∈ sim.brokenEndpoints ↔
          ((x = nodeId ∧ n.type = "endpoint")
            ∨ (x ∈ n.dependents ∧ ∃ m, mget g.nodes x = some m ∧ m.type = "endpoint")))
      ∧ (∀ x, x ∈ sim.servicesWithoutProvider ↔
          (n.type = "provider" ∧ x ∈ n.dependents
            ∧ ∃ m, mget g.nodes x = some m ∧ m.type = "service")) := by
  have hdepts : g.getDependents nodeId = n.dependents := by
    unfold Graph.getDependents; rw [h]
  have hdeps : g.getDependencies nodeId = n.dependencies := by
    unfold Graph.getDependencies; rw [h]
  unfold Graph.removeNodeSimulation
  rw [h]
  refine ⟨_, rfl, ?_, ?_, ?_, ?_⟩
  · intro x
    rw [mem_foldl_guard (g.getDependents nodeId) (fun _ => True) setAdd
      (fun _ _ _ => rfl) (fun _ _ hq => absurd trivial hq) [] x]
    simp [hdepts]
  · intro x
    rw [mem_foldl_guard (g.getDependencies nodeId)
      (fun y => ∃ m, mget g.nodes y = some m ∧ m.dependents.length = 1 ∧ nodeId ∈ m.dependents)
      (orphanStep g nodeId) ?_ ?_ [] x]
    · rw [getDependents_eq_singleton_iff]
      simp [hdeps]
    · rintro acc y ⟨m, hm, h1, h2⟩
      simp only [orphanStep, hm]
      rw [if_pos ⟨h1, h2⟩]
    · intro acc y hq
      cases hm : mget g.nodes y with
      | none => simp only [orphanStep, hm]
      | some m =>
        simp only [orphanStep, hm]
        rw [if_neg]
        exact fun hc => hq ⟨m, hm, hc⟩
  · intro x
    rw [mem_foldl_guard (g.getDependents nodeId)
      (fun y => ∃ m, mget g.nodes y = some m ∧ m.type = "endpoint")
      (endpointStep g) ?_ ?_ _ x]
    · have hinit : x ∈ (if n.type = "endpoint" then setAdd [] nodeId else [])
          ↔ (x = nodeId ∧ n.type = "endpoint") := by
        by_cases ht : n.type = "endpoint" <;> simp [ht, setAdd]
      rw [hinit, hdepts]
    · rintro acc y ⟨m, hm, hty⟩
      simp only [endpointStep, hm]
      rw [if_pos hty]
    · intro acc y hq
      cases hm : mget g.nodes y with
      | none => simp only [endpointStep, hm]
      | some m =>
        simp only [endpointStep, hm]
        rw [if_neg]
        exact fun hc => hq ⟨m, hm, hc⟩
  · intro x
    by_cases ht : n.type = "provider"
    · rw [if_pos ht]
      rw [mem_foldl_guard (g.getDependents nodeId)
        (fun y => ∃ m, mget g.nodes y = some m ∧ m.type = "service")
        (serviceStep g) ?_ ?_ [] x]
      · simp [hdepts, ht]
      · rintro acc y ⟨m, hm, hty⟩
        simp only [serviceStep, hm]
        rw [if_pos hty]
      · intro acc y hq
        cases hm : mget g.nodes y with
        | none => simp only [serviceStep, hm]
        | some m =>
          simp only [serviceStep, hm]
          rw [if_neg]
          exact fun hc => hq ⟨m, hm, hc⟩
    · rw [if_neg ht]
      simp [ht]

/-- Witness graph for C3: `A` of type `provider`, `B` of type `service`,
one edge `B → A` of type `depends_on`. -/
def graphProv : Graph :=
  let g0 := (Graph.empty.addNode (mkNode "A" "provider" 5)).addNode (mkNode "B" "service" 1)
  (g0.addEdge "B" "A" "depends_on").2

/-- The node object stored for `A` in `graphProv`. -/
def nodeAProv : GraphNode := { mkNode "A" "provider" 5 with dependents := ["B"] }

/-- Witness for C3: `removeNodeSimulation("A")` on the provider/service
scenario reports `B` among `servicesWithoutProvider`. -/
theorem removeNodeSimulation_contents_witness :
    ∃ sim, (graphProv.removeNodeSimulation "A").1 = .ok sim
      ∧ "B" ∈ sim.servicesWithoutProvider := by
  obtain ⟨sim, hok, _, _, _, hserv⟩ :=
    removeNodeSimulation_contents graphProv "A" nodeAProv (by decide)
  exact ⟨sim, hok, (hserv "B").2
    ⟨rfl, by decide, { mkNode "B" "service" 1 with dependencies := ["A"] }, by decide, rfl⟩⟩

/-! ## C4: entry-point exemption of the unused detector -/

theorem mem_foldl_append_guard {β γ : Type} (l : List β) (p : β → Prop) (f : β → γ)
    (step : List γ → β → List γ)
    (hstep₁ : ∀ acc y, p y → step acc y = acc ++ [f y])
    (hstep₂ : ∀ acc y, ¬ p y → step acc y = acc) :
    ∀ (init : List γ) (x : γ),
      x ∈ l.foldl step init ↔ x ∈ init ∨ ∃ y ∈ l, p y ∧ f y = x := by
  induction l with
  | nil => simp
  | cons y rest ih =>
    intro init x
    rw [List.foldl_cons, ih]
    by_cases hp : p y
    · rw [hstep₁ init y hp]
      constructor
      · rintro (h | h)
        · rcases List.mem_append.1 h with h' | h'
          · exact Or.inl h'
          · rw [List.mem_singleton] at h'
            exact Or.inr ⟨y, List.mem_cons_self y rest, hp, h'.symm⟩
        · obtain ⟨z, hz, hpz, hfz⟩ := h
          exact Or.inr ⟨z, List.mem_cons_of_mem y hz, hpz, hfz⟩
      · rintro (h | ⟨z, hz, hpz, hfz⟩)
        · exact Or.inl (List.mem_append.2 (Or.inl h))
        · rcases List.mem_cons.1 hz with rfl | h'
          · exact Or.inl (List.mem_append.2 (Or.inr (by simp [hfz])))
          · exact Or.inr ⟨z, h', hpz, hfz⟩
    · rw [hstep₂ init y hp]
      constructor
      · rintro (h | ⟨z, hz, hpz, hfz⟩)
        · exact Or.inl h
        · exact Or.inr ⟨z, List.mem_cons_of_mem y hz, hpz, hfz⟩
      · rintro (h | ⟨z, hz, hpz, hfz⟩)
        · exact Or.inl h
        · rcases List.mem_cons.1 hz with rfl | h'
          · exact absurd hpz hp
          · exact Or.inr ⟨z, h', hpz, hfz⟩

/-- Membership in the unused list implies the node's type is outside the
entry-point allow-list (and it had a zero incoming count). -/
theorem mem_findUnusedNodes (nodes : List GraphNode) (edges : List GraphEdge) (x : GraphNode) :
    x ∈ findUnusedNodes nodes edges ↔
      ∃ y ∈ nodes, ((mget (buildIncoming nodes edges) y.id).getD 0 = 0
        ∧ y.type ∉ entryPointTypes) ∧ y = x := by
  unfold findUnusedNodes
  rw [mem_foldl_append_guard nodes
    (fun n => (mget (buildIncoming nodes edges) n.id).getD 0 = 0 ∧ n.type ∉ entryPointTypes)
    id _ (fun acc y hp => by rw [if_pos hp]; rfl) (fun acc y hp => by rw [if_neg hp]) [] x]
  simp

/-- C4 (amended).  A node whose type is in the detector's entry-point
allow-list — `symfony_route`, `client_call` or `api_endpoint` — and that
has zero incoming edges never appears in the unused list.  (The literal
type `"endpoint"` is *not* in the allow-list; see the counterexample.) -/
theorem findUnusedNodes_entry_exempt (g : Graph) (node : GraphNode)
    (_h1 : node ∈ g.getAllNodes)
    (_h2 : (g.getAllEdges.filter (fun e => e.toId = node.id)).length = 0)
    (h3 : node.type ∈ entryPointTypes) :
    node ∉ findUnusedNodes g.getAllNodes g.getAllEdges := by
  intro hmem
  rw [mem_findUnusedNodes] at hmem
  obtain ⟨y, _, ⟨_, hty⟩, rfl⟩ := hmem
  exact hty h3

/-- A route node with zero incoming edges, for the C4 witness. -/
def nodeRoute : GraphNode := mkNode "R" "symfony_route" 3

/-- Witness graph for C4. -/
def graphRoute : Graph := Graph.empty.addNode nodeRoute

/-- Witness for C4 (amended): a `symfony_route` node with no incoming edge
is not reported unused. -/
theorem findUnusedNodes_entry_exempt_witness :
    nodeRoute ∉ findUnusedNodes graphRoute.getAllNodes graphRoute.getAllEdges :=
  findUnusedNodes_entry_exempt graphRoute nodeRoute (by decide) (by decide) (by decide)

/-- A node of the literal type `"endpoint"`, for the C4 counterexample. -/
def nodeEndpoint : GraphNode := mkNode "E" "endpoint" 3

/-- Counterexample graph for C4: a single `"endpoint"` node, no edges. -/
def graphEndpoint : Graph := Graph.empty.addNode nodeEndpoint

/-- Counterexample to C4 as stated: a node of type `"endpoint"` with zero
incoming edges *does* appear in the unused list, because the allow-list
holds only `symfony_route`, `client_call` and `api_endpoint`. -/
theorem findUnusedNodes_endpoint_cex :
    nodeEndpoint.type = "endpoint"
    ∧ (graphEndpoint.getAllEdges.filter (fun e => e.toId = nodeEndpoint.id)).length = 0
    ∧ nodeEndpoint ∈ findUnusedNodes graphEndpoint.getAllNodes graphEndpoint.getAllEdges := by
  refine ⟨rfl, by decide, ?_⟩
  decide

/-! ## C6: changed-file computation -/

theorem mget_eq_some_of_mem_nodup {α : Type} {l : List (String × α)}
    (h : (l.map Prod.fst).Nodup) {k : String} {v : α} (hm : (k, v) ∈ l) :
    mget l k = some v := by
  induction l with
  | nil => simp at hm
  | cons p rest ih =>
    rw [List.map_cons, List.nodup_cons] at h
    rcases List.mem_cons.1 hm with rfl | hm'
    · simp [mget]
    · by_cases hp : p.1 = k
      · exfalso
        exact h.1 (hp ▸ List.mem_map.2 ⟨(k, v), hm', rfl⟩)
      · simp only [mget, hp, if_false]
        exact ih h.2 hm'

theorem any_fst_eq_true_iff {α : Type} (l : List (String × α)) (p : String) :
    (l.any (fun pc => pc.1 = p)) = true ↔ (mget l p).isSome = true := by
  rw [mget_isSome_iff, List.any_eq_true]
  constructor
  · rintro ⟨pc, hpc, hfst⟩
    rw [decide_eq_true_eq] at hfst
    exact List.mem_map.2 ⟨pc, hpc, hfst⟩
  · intro h
    obtain ⟨pc, hpc, hfst⟩ := List.mem_map.1 h
    exact ⟨pc, hpc, decide_eq_true hfst⟩

theorem hasChanged_eq_true_iff (hashFn : String → String) (cache : CacheData)
    (fp c : String) :
    hasChanged hashFn cache fp c = true ↔
      mget cache.files fp = none
        ∨ ∃ e, mget cache.files fp = some e ∧ e.hash ≠ hashFn c := by
  unfold hasChanged
  cases hm : mget cache.files fp with
  | none => simp [hm]
  | some e => simp [hm]

/-- C6.  `getChangedFiles(currentFiles)` holds exactly: the current paths
whose stored hash is missing or differs from the fresh content hash, and
the stored paths absent from the current file set. -/
theorem getChangedFiles_spec (hashFn : String → String) (cache : CacheData)
    (currentFiles : List (String × String)) (p : String)
    (hcur : (currentFiles.map Prod.fst).Nodup) :
    p ∈ getChangedFiles hashFn cache currentFiles ↔
      ((∃ c, mget currentFiles p = some c ∧
          (mget cache.files p = none
            ∨ ∃ e, mget cache.files p = some e ∧ e.hash ≠ hashFn c))
        ∨ ((mget cache.files p).isSome = true ∧ mget currentFiles p = none)) := by
  unfold getChangedFiles
  rw [mem_foldl_append_guard cache.files
    (fun entry => ¬ (currentFiles.any (fun pc => pc.1 = entry.1)) = true) Prod.fst _
    (fun acc y hp => by rw [if_pos hp]) (fun acc y hp => by rw [if_neg hp]) _ p]
  rw [mem_foldl_append_guard currentFiles
    (fun pc => hasChanged hashFn cache pc.1 pc.2 = true) Prod.fst _
    (fun acc y hp => by rw [if_pos hp]) (fun acc y hp => by rw [if_neg hp]) [] p]
  simp only [List.not_mem_nil, false_or]
  constructor
  · rintro (⟨pc, hpc, hch, rfl⟩ | ⟨entry, hentry, hany, rfl⟩)
    · have hm : mget currentFiles pc.1 = some pc.2 := mget_eq_some_of_mem_nodup hcur hpc
      exact Or.inl ⟨pc.2, hm, (hasChanged_eq_true_iff hashFn cache pc.1 pc.2).1 hch⟩
    · refine Or.inr ⟨?_, ?_⟩
      · exact (mget_isSome_iff _ _).2 (List.mem_map.2 ⟨entry, hentry, rfl⟩)
      · rw [← Option.not_isSome_iff_eq_none]
        intro hs
        exact hany ((any_fst_eq_true_iff currentFiles entry.1).2 hs)
  · rintro (⟨c, hc, hrest⟩ | ⟨hsome, hnone⟩)
    · exact Or.inl ⟨(p, c), mget_mem hc,
        (hasChanged_eq_true_iff hashFn cache p c).2 hrest, rfl⟩
    · obtain ⟨entry, hentry, hfst⟩ := List.mem_map.1 ((mget_isSome_iff _ _).1 hsome)
      refine Or.inr ⟨entry, hentry, ?_, hfst⟩
      rw [hfst, any_fst_eq_true_iff currentFiles p, hnone]
      simp

/-- Stored cache for the C6 witness: entries for `a.ts` and `gone.ts`. -/
def cacheW : CacheData :=
  { version := "1.0.0", timestamp := 0,
    files := [("a.ts", ⟨"H1", [], [], 0⟩), ("gone.ts", ⟨"H2", [], [], 0⟩)] }

/-- Current file set for the C6 witness: only `a.ts`, with new content. -/
def currentW : List (String × String) := [("a.ts", "new-content")]

/-- Witness for C6: the deleted `gone.ts` and the modified `a.ts` are both
reported. -/
theorem getChangedFiles_spec_witness :
    "gone.ts" ∈ getChangedFiles (fun s => s) cacheW currentW
    ∧ "a.ts" ∈ getChangedFiles (fun s => s) cacheW currentW := by
  constructor
  · exact (getChangedFiles_spec (fun s => s) cacheW currentW "gone.ts" (by decide)).2
      (Or.inr ⟨by decide, by decide⟩)
  · exact (getChangedFiles_spec (fun s => s) cacheW currentW "a.ts" (by decide)).2
      (Or.inl ⟨"new-content", by decide, Or.inr ⟨⟨"H1", [], [], 0⟩, by decide, by decide⟩⟩)

/-! ## C9: cache round-trip idempotence -/

/-- Folding `setCacheEntry` over a batch only rewrites the `files` map. -/
theorem files_foldl_setCacheEntry (hashFn : String → String)
    (current : List (String × String)) (ns es : String → String → List String) (now : Nat) :
    ∀ c0 : CacheData,
      (current.foldl
        (fun c pc => setCacheEntry hashFn c pc.1 pc.2 (ns pc.1 pc.2) (es pc.1 pc.2) now)
        c0).files =
      current.foldl
        (fun fs pc => mset fs pc.1 ⟨hashFn pc.2, ns pc.1 pc.2, es pc.1 pc.2, now⟩)
        c0.files := by
  induction current with
  | nil => intro c0; rfl
  | cons q rest ih =>
    intro c0
    rw [List.foldl_cons, List.foldl_cons, ih]
    rfl

/-- Lookup after writing one entry per current file: each current path maps
to its freshly written entry, other paths are untouched. -/
theorem mget_foldl_mset (current : List (String × String)) (F : String × String → CacheEntry)
    (hcur : (current.map Prod.fst).Nodup) :
    ∀ (fs0 : List (String × CacheEntry)) (p : String),
      mget (current.foldl (fun fs pc => mset fs pc.1 (F pc)) fs0) p =
        (match mget current p with
          | some c => some (F (p, c))
          | none => mget fs0 p) := by
  induction current with
  | nil => intro fs0 p; simp [mget]
  | cons q rest ih =>
    rw [List.map_cons, List.nodup_cons] at hcur
    intro fs0 p
    rw [List.foldl_cons, ih hcur.2]
    by_cases hq : q.1 = p
    · have hrest : mget rest p = none := by
        rw [mget_eq_none_iff]
        exact fun hmem => hcur.1 (hq ▸ hmem)
      have hcons : mget (q :: rest) p = some q.2 := by simp [mget, hq]
      rw [hrest, hcons]
      rw [← hq, mget_mset_self]
    · simp only [mget, hq, if_neg hq]
      cases hr : mget rest p with
      | some c => rfl
      | none => exact mget_mset_ne fs0 q.1 p _ (fun hh => hq hh.symm)

/-- C9.  Starting from an empty cache (the first `getChangedFiles` call is
a pure query and writes nothing), writing `setCacheEntry(path, content, …)`
for every current file and then calling `getChangedFiles` again with the
identical current file map yields an empty change set. -/
theorem cache_round_trip_idempotent (hashFn : String → String)
    (current : List (String × String)) (ns es : String → String → List String)
    (now t0 : Nat) (hcur : (current.map Prod.fst).Nodup) :
    getChangedFiles hashFn
      (current.foldl
        (fun c pc => setCacheEntry hashFn c pc.1 pc.2 (ns pc.1 pc.2) (es pc.1 pc.2) now)
        (createEmptyCache t0))
      current = [] := by
  set cacheF := current.foldl
    (fun c pc => setCacheEntry hashFn c pc.1 pc.2 (ns pc.1 pc.2) (es pc.1 pc.2) now)
    (createEmptyCache t0) with hcf
  have hfiles : ∀ p, mget cacheF.files p =
      (match mget current p with
        | some c => some ⟨hashFn c, ns p c, es p c, now⟩
        | none => none) := by
    intro p
    rw [hcf, files_foldl_setCacheEntry,
      mget_foldl_mset current (fun pc => ⟨hashFn pc.2, ns pc.1 pc.2, es pc.1 pc.2, now⟩) hcur]
    cases mget current p <;> rfl
  rw [List.eq_nil_iff_forall_not_mem]
  intro x hx
  unfold getChangedFiles at hx
  rw [mem_foldl_append_guard cacheF.files
    (fun entry => ¬ (current.any (fun pc => pc.1 = entry.1)) = true) Prod.fst _
    (fun acc y hp => by rw [if_pos hp]) (fun acc y hp => by rw [if_neg hp]) _ x] at hx
  rw [mem_foldl_append_guard current
    (fun pc => hasChanged hashFn cacheF pc.1 pc.2 = true) Prod.fst _
    (fun acc y hp => by rw [if_pos hp]) (fun acc y hp => by rw [if_neg hp]) [] x] at hx
  rcases hx with ((hnil | ⟨pc, hpc, hch, _⟩) | ⟨entry, hentry, hany, _⟩)
  · simp at hnil
  · have hm : mget current pc.1 = some pc.2 := mget_eq_some_of_mem_nodup hcur hpc
    have hlook : mget cacheF.files pc.1 = some ⟨hashFn pc.2, ns pc.1 pc.2, es pc.1 pc.2, now⟩ := by
      rw [hfiles pc.1, hm]
    rcases (hasChanged_eq_true_iff hashFn cacheF pc.1 pc.2).1 hch with hnone | ⟨e, he, hne⟩
    · rw [hlook] at hnone
      cases hnone
    · rw [hlook] at he
      injection he with he'
      subst he'
      exact hne rfl
  · have hsome : (mget cacheF.files entry.1).isSome = true :=
      (mget_isSome_iff _ _).2 (List.mem_map.2 ⟨entry, hentry, rfl⟩)
    rw [hfiles entry.1] at hsome
    cases hc : mget current entry.1 with
    | none => rw [hc] at hsome; simp at hsome
    | some c =>
      exact hany ((any_fst_eq_true_iff current entry.1).2 (by rw [hc]; rfl))

/-- Witness for C9 with one concrete file. -/
theorem cache_round_trip_idempotent_witness :
    getChangedFiles (fun s => s)
      ([("a.ts", "body")].foldl
        (fun c pc => setCacheEntry (fun s => s) c pc.1 pc.2 [] [] 7)
        (createEmptyCache 0))
      [("a.ts", "body")] = [] :=
  cache_round_trip_idempotent (fun s => s) [("a.ts", "body")]
    (fun _ _ => []) (fun _ _ => []) 7 0 (by decide)

/-! ## C10: duplicate edges are kept, adjacency deduplicates -/

/-- Full effect of a successful `addEdge` on the store: the edge is
appended to the source bucket, and the two endpoint node objects receive
the mirrored adjacency updates (a single object when `from = to`). -/
theorem addEdge_nodes_lookup (g : Graph) (f t ty : String) (nf nt : GraphNode)
    (hf : mget g.nodes f = some nf) (ht : mget g.nodes t = some nt) :
    (g.addEdge f t ty).1 = .ok ()
    ∧ (g.addEdge f t ty).2.edges = mset g.edges f (((mget g.edges f).getD []) ++ [⟨f, t, ty⟩])
    ∧ ∀ x, mget (g.addEdge f t ty).2.nodes x =
        if x = f ∧ x = t then
          some { nf with dependencies := setAdd nf.dependencies t,
                         dependents := setAdd nf.dependents f }
        else if x = f then some { nf with dependencies := setAdd nf.dependencies t }
        else if x = t then some { nt with dependents := setAdd nt.dependents f }
        else mget g.nodes x := by
  have hcond : ¬ (mget g.nodes f = none ∨ mget g.nodes t = none) := by
    rw [hf, ht]; simp
  by_cases hft : f = t
  · subst hft
    have hnfnt : nf = nt := by rw [hf] at ht; injection ht
    subst hnfnt
    unfold Graph.addEdge
    rw [if_neg hcond]
    simp only [Graph.modifyNode, hf, mget_mset_self]
    refine ⟨trivial, trivial, fun x => ?_⟩
    by_cases hx : x = f
    · subst hx
      simp [mget_mset_self]
    · rw [mget_mset_ne _ _ _ _ hx, mget_mset_ne _ _ _ _ hx]
      simp [hx]
  · unfold Graph.addEdge
    rw [if_neg hcond]
    have ht1 : mget (mset g.nodes f { nf with dependencies := setAdd nf.dependencies t }) t
        = some nt := by
      rw [mget_mset_ne _ _ _ _ (fun hh => hft hh.symm), ht]
    simp only [Graph.modifyNode, hf, mget_mset_self, ht1]
    refine ⟨trivial, trivial, fun x => ?_⟩
    by_cases hxf : x = f
    · subst hxf
      rw [mget_mset_ne _ _ _ _ hft, mget_mset_self]
      simp [hft]
    · by_cases hxt : x = t
      · subst hxt
        rw [mget_mset_self]
        simp [hxf]
      · rw [mget_mset_ne _ _ _ _ hxt, mget_mset_ne _ _ _ _ hxf]
        simp [hxf, hxt]

/-- Appending an element to one bucket of an edge map grows the flattened
edge list by exactly one. -/
theorem flatten_mset_append {β : Type} (m : List (String × List β)) (k : String) (x : β) :
    ((mset m k (((mget m k).getD []) ++ [x])).map (·.2)).flatten.length
      = ((m.map (·.2)).flatten).length + 1 := by
  induction m with
  | nil => simp [mget, mset]
  | cons p rest ih =>
    by_cases hp : p.1 = k
    · simp [mget, mset, hp]
      omega
    · simp only [mget, mset, hp, if_false, List.map_cons, List.flatten_cons,
        List.length_append, ih]
      omega

/-- C10.  On a graph where both endpoints exist (with duplicate-free
adjacency sets, as the `Set` objects guarantee), calling
`addEdge(a, b, t)` twice succeeds twice, appends two separate entries to
`getAllEdges` (counted by `getStats().totalEdges`), while `b` occurs
exactly once in `a`'s dependency set and `a` exactly once in `b`'s
dependent set. -/
theorem addEdge_duplicate (g : Graph) (a b ty : String) (na nb : GraphNode)
    (ha : mget g.nodes a = some na) (hb : mget g.nodes b = some nb)
    (hdepa : na.dependencies.Nodup) (hdepb : nb.dependents.Nodup) :
    (g.addEdge a b ty).1 = .ok ()
    ∧ (((g.addEdge a b ty).2).addEdge a b ty).1 = .ok ()
    ∧ ((((g.addEdge a b ty).2).addEdge a b ty).2).getAllEdges.length
        = g.getAllEdges.length + 2
    ∧ (((((g.addEdge a b ty).2).addEdge a b ty).2).getStats).totalEdges
        = (g.getStats).totalEdges + 2
    ∧ (((((g.addEdge a b ty).2).addEdge a b ty).2).getDependencies a).count b = 1
    ∧ (((((g.addEdge a b ty).2).addEdge a b ty).2).getDependents b).count a = 1 := by
  obtain ⟨hok1, hedges1, hnodes1⟩ := addEdge_nodes_lookup g a b ty na nb ha hb
  by_cases hab : a = b
  · subst hab
    have hnab : na = nb := by rw [ha] at hb; injection hb
    subst hnab
    set na1 : GraphNode :=
      { na with dependencies := setAdd na.dependencies a,
                dependents := setAdd na.dependents a } with hna1
    have ha1 : mget ((g.addEdge a a ty).2).nodes a = some na1 := by
      rw [hnodes1 a]; simp
    obtain ⟨hok2, hedges2, hnodes2⟩ :=
      addEdge_nodes_lookup ((g.addEdge a a ty).2) a a ty na1 na1 ha1 ha1
    have hfinal : mget ((((g.addEdge a a ty).2).addEdge a a ty).2).nodes a =
        some { na1 with dependencies := setAdd na1.dependencies a,
                        dependents := setAdd na1.dependents a } := by
      rw [hnodes2 a]; simp
    refine ⟨hok1, hok2, ?_, ?_, ?_, ?_⟩
    · rw [getAllEdges_eq_join, getAllEdges_eq_join, hedges2, hedges1, flatten_mset_append]
      rw [flatten_mset_append]
    · show ((((g.addEdge a a ty).2).addEdge a a ty).2).getAllEdges.length
          = g.getAllEdges.length + 2
      rw [getAllEdges_eq_join, getAllEdges_eq_join, hedges2, hedges1, flatten_mset_append]
      rw [flatten_mset_append]
    · unfold Graph.getDependencies
      rw [hfinal]
      simp only [hna1]
      rw [setAdd_of_mem ((mem_setAdd _ _ _).2 (Or.inr rfl))]
      exact count_setAdd_self hdepa a
    · unfold Graph.getDependents
      rw [hfinal]
      simp only [hna1]
      rw [setAdd_of_mem ((mem_setAdd _ _ _).2 (Or.inr rfl))]
      exact count_setAdd_self hdepb a
  · have hba : ¬ b = a := fun hh => hab hh.symm
    set na1 : GraphNode := { na with dependencies := setAdd na.dependencies b } with hna1
    set nb1 : GraphNode := { nb with dependents := setAdd nb.dependents a } with hnb1
    have ha1 : mget ((g.addEdge a b ty).2).nodes a = some na1 := by
      rw [hnodes1 a]; simp [hab]
    have hb1 : mget ((g.addEdge a b ty).2).nodes b = some nb1 := by
      rw [hnodes1 b]; simp [hba]
    obtain ⟨hok2, hedges2, hnodes2⟩ :=
      addEdge_nodes_lookup ((g.addEdge a b ty).2) a b ty na1 nb1 ha1 hb1
    have hfa : mget ((((g.addEdge a b ty).2).addEdge a b ty).2).nodes a =
        some { na1 with dependencies := setAdd na1.dependencies b } := by
      rw [hnodes2 a]; simp [hab]
    have hfb : mget ((((g.addEdge a b ty).2).addEdge a b ty).2).nodes b =
        some { nb1 with dependents := setAdd nb1.dependents a } := by
      rw [hnodes2 b]; simp [hba]
    refine ⟨hok1, hok2, ?_, ?_, ?_, ?_⟩
    · rw [getAllEdges_eq_join, getAllEdges_eq_join, hedges2, hedges1, flatten_mset_append]
      rw [flatten_mset_append]
    · show ((((g.addEdge a b ty).2).addEdge a b ty).2).getAllEdges.length
          = g.getAllEdges.length + 2
      rw [getAllEdges_eq_join, getAllEdges_eq_join, hedges2, hedges1, flatten_mset_append]
      rw [flatten_mset_append]
    · unfold Graph.getDependencies
      rw [hfa]
      simp only [hna1]
      rw [setAdd_of_mem ((mem_setAdd _ _ _).2 (Or.inr rfl))]
      exact count_setAdd_self hdepa b
    · unfold Graph.getDependents
      rw [hfb]
      simp only [hnb1]
      rw [setAdd_of_mem ((mem_setAdd _ _ _).2 (Or.inr rfl))]
      exact count_setAdd_self hdepb a

/-- Witness for C10 on the two-node graph of `graphProv`, repeating the
`B → A` edge. -/
theorem addEdge_duplicate_witness :
    (graphProv.addEdge "B" "A" "depends_on").1 = .ok ()
    ∧ (((graphProv.addEdge "B" "A" "depends_on").2).addEdge "B" "A" "depends_on").1 = .ok ()
    ∧ ((((graphProv.addEdge "B" "A" "depends_on").2).addEdge "B" "A" "depends_on").2).getAllEdges.length
        = graphProv.getAllEdges.length + 2
    ∧ (((((graphProv.addEdge "B" "A" "depends_on").2).addEdge "B" "A" "depends_on").2).getStats).totalEdges
        = (graphProv.getStats).totalEdges + 2
    ∧ (((((graphProv.addEdge "B" "A" "depends_on").2).addEdge "B" "A" "depends_on").2).getDependencies "B").count "A" = 1
    ∧ (((((graphProv.addEdge "B" "A" "depends_on").2).addEdge "B" "A" "depends_on").2).getDependents "A").count "B" = 1 :=
  addEdge_duplicate graphProv "B" "A" "depends_on"
    { mkNode "B" "service" 1 with dependencies := ["A"] } nodeAProv
    (by decide) (by decide) (by decide) (by decide)

/-! ## C1: mirror invariant -/

/-- The mirror property of the spec: every recorded edge `(a, b, t)` has
`b` in `a`'s dependency set and `a` in `b`'s dependent set. -/
def Mirror (g : Graph) : Prop :=
  ∀ e ∈ g.getAllEdges,
    e.toId ∈ g.getDependencies e.fromId ∧ e.fromId ∈ g.getDependents e.toId

/-- Graphs reachable by `addNode`/`addEdge` sequences in which `addNode`
is only called on ids that have no recorded edges at that time (the fresh
ids of a single extraction pass).  `addEdge` steps are unrestricted: a
failing call leaves the state unchanged. -/
inductive Reached : Graph → Prop
  | empty : Reached Graph.empty
  | addNode (g : Graph) (node : GraphNode) :
      Reached g →
      (∀ e ∈ g.getAllEdges, e.fromId ≠ node.id ∧ e.toId ≠ node.id) →
      Reached (g.addNode node)
  | addEdge (g : Graph) (f t ty : String) :
      Reached g → Reached ((g.addEdge f t ty).2)

theorem mset_of_absent {α : Type} {m : List (String × α)} {k : String}
    (h : mget m k = none) (v : α) : mset m k v = m ++ [(k, v)] := by
  induction m with
  | nil => rfl
  | cons p rest ih =>
    by_cases hp : p.1 = k
    · simp [mget, hp] at h
    · simp only [mget, hp, if_false] at h
      simp [mset, hp, ih h]

theorem getAllEdges_addNode (g : Graph) (node : GraphNode) :
    (g.addNode node).getAllEdges = g.getAllEdges := by
  rw [getAllEdges_eq_join, getAllEdges_eq_join]
  show ((if (mget g.edges node.id).isSome then g.edges
        else mset g.edges node.id []).map (·.2)).flatten = _
  by_cases hs : (mget g.edges node.id).isSome
  · rw [if_pos hs]
  · rw [if_neg hs, mset_of_absent (Option.not_isSome_iff_eq_none.1 hs)]
    simp

theorem getDependencies_addNode (g : Graph) (node : GraphNode) (x : String) :
    (g.addNode node).getDependencies x =
      if x = node.id then node.dependencies else g.getDependencies x := by
  unfold Graph.getDependencies Graph.addNode
  by_cases hx : x = node.id
  · subst hx
    rw [mget_mset_self]
    simp
  · rw [mget_mset_ne _ _ _ _ hx, if_neg hx]

theorem getDependents_addNode (g : Graph) (node : GraphNode) (x : String) :
    (g.addNode node).getDependents x =
      if x = node.id then node.dependents else g.getDependents x := by
  unfold Graph.getDependents Graph.addNode
  by_cases hx : x = node.id
  · subst hx
    rw [mget_mset_self]
    simp
  · rw [mget_mset_ne _ _ _ _ hx, if_neg hx]

theorem mem_flatten_mset_append {β : Type} (m : List (String × List β)) (k : String)
    (x y : β) :
    (y ∈ ((mset m k (((mget m k).getD []) ++ [x])).map (·.2)).flatten) ↔
      y ∈ ((m.map (·.2)).flatten) ∨ y = x := by
  induction m with
  | nil => simp [mget, mset]
  | cons p rest ih =>
    by_cases hp : p.1 = k
    · have hm : mget (p :: rest) k = some p.2 := by simp [mget, hp]
      have hms : mset (p :: rest) k (((mget (p :: rest) k).getD []) ++ [x])
          = (k, p.2 ++ [x]) :: rest := by
        rw [hm]
        simp [mset, hp]
      rw [hms]
      simp only [List.map_cons, List.flatten_cons, List.mem_append, List.mem_singleton]
      tauto
    · have hm : mget (p :: rest) k = mget rest k := by simp [mget, hp]
      have hms : mset (p :: rest) k (((mget (p :: rest) k).getD []) ++ [x])
          = p :: mset rest k (((mget rest k).getD []) ++ [x]) := by
        rw [hm]
        simp [mset, hp]
      rw [hms]
      simp only [List.map_cons, List.flatten_cons, List.mem_append, List.mem_singleton, ih]
      tauto

theorem getDependencies_addEdge (g : Graph) (f t ty : String) (nf nt : GraphNode)
    (hf : mget g.nodes f = some nf) (ht : mget g.nodes t = some nt) (x : String) :
    (g.addEdge f t ty).2.getDependencies x =
      if x = f then setAdd nf.dependencies t else g.getDependencies x := by
  obtain ⟨-, -, hnodes⟩ := addEdge_nodes_lookup g f t ty nf nt hf ht
  unfold Graph.getDependencies
  rw [hnodes x]
  by_cases hxf : x = f <;> by_cases hxt : x = t
  · have hft : f = t := hxf.symm.trans hxt
    have hnfnt : some nf = some nt := by rw [← hf, ← ht, hft]
    injection hnfnt with hnfnt
    simp [hxf, hxt, hft, hnfnt]
  · have hft : ¬ f = t := fun hh => hxt (hxf.trans hh)
    simp [hxf, hxt, hft]
  · have htf : ¬ t = f := fun hh => hxf (hxt.trans hh)
    simp [hxf, hxt, htf, ht]
  · simp [hxf, hxt]

theorem getDependents_addEdge (g : Graph) (f t ty : String) (nf nt : GraphNode)
    (hf : mget g.nodes f = some nf) (ht : mget g.nodes t = some nt) (x : String) :
    (g.addEdge f t ty).2.getDependents x =
      if x = t then setAdd nt.dependents f else g.getDependents x := by
  obtain ⟨-, -, hnodes⟩ := addEdge_nodes_lookup g f t ty nf nt hf ht
  unfold Graph.getDependents
  rw [hnodes x]
  by_cases hxf : x = f <;> by_cases hxt : x = t
  · have hft : f = t := hxf.symm.trans hxt
    have hnfnt : some nf = some nt := by rw [← hf, ← ht, hft]
    injection hnfnt with hnfnt
    simp [hxf, hxt, hft, hnfnt]
  · have hft : ¬ f = t := fun hh => hxt (hxf.trans hh)
    simp [hxf, hxt, hft, hf]
  · have htf : ¬ t = f := fun hh => hxf (hxt.trans hh)
    simp [hxf, hxt, htf]
  · simp [hxf, hxt]

/-- C1 (amended).  The mirror invariant holds after any sequence of
`addNode`/`addEdge` operations in which no `addNode` call re-targets an id
that already has recorded edges: for every edge `(a,b,t)` the target is in
`a`'s dependency set and the source is in `b`'s dependent set.  (Re-adding
a node that has recorded edges replaces its adjacency sets with the
caller's, breaking the invariant; see the counterexample.) -/
theorem mirror_invariant (g : Graph) (h : Reached g) : Mirror g := by
  induction h with
  | empty =>
    intro e he
    simp [Graph.empty, Graph.getAllEdges] at he
  | addNode g node hr hsafe ih =>
    intro e he
    rw [getAllEdges_addNode] at he
    obtain ⟨h1, h2⟩ := ih e he
    obtain ⟨hne_f, hne_t⟩ := hsafe e he
    rw [getDependencies_addNode, getDependents_addNode, if_neg hne_f, if_neg hne_t]
    exact ⟨h1, h2⟩
  | addEdge g f t ty hr ih =>
    by_cases hok : mget g.nodes f = none ∨ mget g.nodes t = none
    · have hsame : (g.addEdge f t ty).2 = g := by
        unfold Graph.addEdge
        rw [if_pos hok]
      rw [hsame]
      exact ih
    · push_neg at hok
      obtain ⟨nf, hf⟩ := Option.ne_none_iff_exists'.1 hok.1
      obtain ⟨nt, ht⟩ := Option.ne_none_iff_exists'.1 hok.2
      obtain ⟨-, hedges, -⟩ := addEdge_nodes_lookup g f t ty nf nt hf ht
      intro e he
      rw [Graph.getAllEdges, foldl_append_eq_join] at he
      rw [List.nil_append, hedges, mem_flatten_mset_append, ← getAllEdges_eq_join] at he
      rw [getDependencies_addEdge g f t ty nf nt hf ht,
        getDependents_addEdge g f t ty nf nt hf ht]
      have hdepf : g.getDependencies f = nf.dependencies := by
        unfold Graph.getDependencies
        rw [hf]
      have hdept : g.getDependents t = nt.dependents := by
        unfold Graph.getDependents
        rw [ht]
      rcases he with he | rfl
      · obtain ⟨h1, h2⟩ := ih e he
        constructor
        · by_cases hef : e.fromId = f
          · rw [if_pos hef]
            rw [hef, hdepf] at h1
            exact (mem_setAdd _ _ _).2 (Or.inl h1)
          · rw [if_neg hef]
            exact h1
        · by_cases het : e.toId = t
          · rw [if_pos het]
            rw [het, hdept] at h2
            exact (mem_setAdd _ _ _).2 (Or.inl h2)
          · rw [if_neg het]
            exact h2
      · constructor
        · rw [if_pos rfl]
          exact (mem_setAdd _ _ _).2 (Or.inr rfl)
        · rw [if_pos rfl]
          exact (mem_setAdd _ _ _).2 (Or.inr rfl)

/-- Witness for C1 (amended): the mirror invariant holds on the concrete
provider/service graph built by fresh `addNode` calls and one `addEdge`. -/
theorem mirror_invariant_witness : Mirror graphProv :=
  mirror_invariant graphProv
    (by
      have h1 := Reached.addNode Graph.empty (mkNode "A" "provider" 5) Reached.empty
        (by decide)
      have h2 := Reached.addNode _ (mkNode "B" "service" 1) h1 (by decide)
      exact Reached.addEdge _ "B" "A" "depends_on" h2)

/-- Counterexample graph for C1 as stated: add `A` and `B`, record the
edge `A → B`, then call `addNode` again with id `A` (a fresh node object,
with empty adjacency sets, exactly as the extractors and the repository's
own tests build nodes). -/
def graphRedo : Graph :=
  (((Graph.empty.addNode (mkNode "A" "function" 2)).addNode
    (mkNode "B" "function" 2)).addEdge "A" "B" "calls").2.addNode (mkNode "A" "function" 2)

/-- Counterexample to C1 as stated: after re-adding node `A`, the edge
`(A, B, calls)` is still reported by `getAllEdges` but `B` is no longer in
`getDependencies(A)` (and `A` survives in `getDependents(B)` only because
`B` was not re-added). -/
theorem mirror_invariant_cex :
    GraphEdge.mk "A" "B" "calls" ∈ graphRedo.getAllEdges
    ∧ "B" ∉ graphRedo.getDependencies "A" := by
  decide

/-! ## C7: dependency-depth traversal terminates and lower-bounds the
longest chain -/

theorem dfsDepth_zero (g : Graph) (c : String) (d : Nat) (st : List String × Nat) :
    g.dfsDepth 0 c d st = st := rfl

theorem dfsDepth_succ (g : Graph) (fuel : Nat) (c : String) (d : Nat)
    (vis : List String) (M : Nat) :
    g.dfsDepth (fuel + 1) c d (vis, M) =
      if c ∈ vis then (vis, M)
      else (g.getDependencies c).foldl
        (fun st depId => g.dfsDepth fuel depId (d + 1) st)
        (vis ++ [c], max M d) := rfl

/-- The visited set only grows during the walk. -/
theorem dfsDepth_visited_mono (g : Graph) :
    ∀ (fuel : Nat) (c : String) (d : Nat) (st : List String × Nat),
      st.1 ⊆ (g.dfsDepth fuel c d st).1 := by
  intro fuel
  induction fuel with
  | zero => intro c d st; rw [dfsDepth_zero]; exact List.Subset.refl _
  | succ n ih =>
    intro c d st
    obtain ⟨vis, M⟩ := st
    rw [dfsDepth_succ]
    by_cases hc : c ∈ vis
    · rw [if_pos hc]; exact List.Subset.refl _
    · rw [if_neg hc]
      have hfold : ∀ (l : List String) (st : List String × Nat),
          st.1 ⊆ (l.foldl (fun st depId => g.dfsDepth n depId (d + 1) st) st).1 := by
        intro l
        induction l with
        | nil => intro st; rw [List.foldl_nil]; exact List.Subset.refl _
        | cons x xs ihl =>
          intro st
          rw [List.foldl_cons]
          exact (ih x (d + 1) st).trans (ihl _)
      exact (List.subset_append_left vis [c]).trans
        (hfold (g.getDependencies c) (vis ++ [c], max M d))

/-- With more than `|U \ visited|` units of fuel, where `U` is closed
under the dependency sets of stored nodes and contains the current id, the
result no longer depends on the fuel: the recursion of the source needs
only that much depth because each proceeding call marks a new node
visited. -/
theorem dfsDepth_fuel_stable (g : Graph) (U : List String)
    (hclosed : ∀ p ∈ g.nodes, ∀ dep ∈ p.2.dependencies, dep ∈ U) :
    ∀ (f₁ f₂ : Nat) (c : String) (d : Nat) (vis : List String) (M : Nat),
      c ∈ U →
      (U.toFinset \ vis.toFinset).card < f₁ →
      (U.toFinset \ vis.toFinset).card < f₂ →
      g.dfsDepth f₁ c d (vis, M) = g.dfsDepth f₂ c d (vis, M) := by
  intro f₁
  induction f₁ with
  | zero => intro f₂ c d vis M _ h1 _; exact absurd h1 (Nat.not_lt_zero _)
  | succ n ih =>
    intro f₂ c d vis M hcU h1 h2
    obtain ⟨m, rfl⟩ : ∃ m, f₂ = m + 1 := ⟨f₂ - 1, by omega⟩
    rw [dfsDepth_succ, dfsDepth_succ]
    by_cases hc : c ∈ vis
    · rw [if_pos hc, if_pos hc]
    · rw [if_neg hc, if_neg hc]
      have hslack : (U.toFinset \ (vis ++ [c]).toFinset).card
          < (U.toFinset \ vis.toFinset).card := by
        have hmem : c ∈ U.toFinset \ vis.toFinset := by
          simp [List.mem_toFinset, hcU, hc]
        have herase : U.toFinset \ (vis ++ [c]).toFinset
            = (U.toFinset \ vis.toFinset).erase c := by
          ext a
          simp only [Finset.mem_sdiff, List.mem_toFinset, List.mem_append,
            List.mem_singleton, Finset.mem_erase]
          tauto
        rw [herase]
        exact Finset.card_erase_lt_of_mem hmem
      have hdeps : ∀ dep ∈ g.getDependencies c, dep ∈ U := by
        intro dep hdep
        unfold Graph.getDependencies at hdep
        cases hm : mget g.nodes c with
        | none => rw [hm] at hdep; simp at hdep
        | some node =>
          rw [hm] at hdep
          exact hclosed (c, node) (mget_mem hm) dep hdep
      have hfold : ∀ (l : List String), (∀ dep ∈ l, dep ∈ U) →
          ∀ (sv : List String) (sM : Nat), (vis ++ [c]) ⊆ sv →
            l.foldl (fun st depId => g.dfsDepth n depId (d + 1) st) (sv, sM)
              = l.foldl (fun st depId => g.dfsDepth m depId (d + 1) st) (sv, sM) := by
        intro l
        induction l with
        | nil => intro _ sv sM _; rfl
        | cons x xs ihl =>
          intro hlU sv sM hsub
          rw [List.foldl_cons, List.foldl_cons]
          have hx : x ∈ U := hlU x (List.mem_cons_self x xs)
          have hsv : (U.toFinset \ sv.toFinset).card
              ≤ (U.toFinset \ (vis ++ [c]).toFinset).card := by
            apply Finset.card_le_card
            apply Finset.sdiff_subset_sdiff (le_refl _)
            intro a ha
            rw [List.mem_toFinset] at ha ⊢
            exact hsub ha
          have hn : (U.toFinset \ sv.toFinset).card < n := by omega
          have hm' : (U.toFinset \ sv.toFinset).card < m := by omega
          have heq : g.dfsDepth n x (d + 1) (sv, sM) = g.dfsDepth m x (d + 1) (sv, sM) :=
            ih m x (d + 1) sv sM hx hn hm'
          rw [heq]
          have hmono := dfsDepth_visited_mono g m x (d + 1) (sv, sM)
          exact ihl (fun dep hdep => hlU dep (List.mem_cons_of_mem x hdep))
            (g.dfsDepth m x (d + 1) (sv, sM)).1 (g.dfsDepth m x (d + 1) (sv, sM)).2
            (hsub.trans hmono)
      exact hfold (g.getDependencies c) hdeps (vis ++ [c]) (max M d) (fun a ha => ha)

theorem nodup_concat {s : List String} (h : s.Nodup) {x : String} (hx : x ∉ s) :
    (s ++ [x]).Nodup := by
  rw [List.nodup_append]
  refine ⟨h, List.nodup_singleton x, ?_⟩
  intro a ha hax
  rw [List.mem_singleton] at hax
  exact hx (hax ▸ ha)

/-- A dependency chain: each element is in the dependency set of its
predecessor. -/
def IsDepChain (g : Graph) (p : List String) : Prop :=
  List.Chain' (fun a b => b ∈ g.getDependencies a) p

/-- Predicate: `n` is realized by a duplicate-free dependency chain of `n` edges
starting at `root`. -/
def Realizes (g : Graph) (root : String) (n : Nat) : Prop :=
  ∃ p : List String, p.head? = some root ∧ p.Nodup ∧ IsDepChain g p ∧ p.length = n + 1

/-- Every depth the walk reaches is realized by a simple dependency chain
from the root: the call stack of the walk is such a chain, because the
global visited set keeps its elements distinct. -/
theorem dfsDepth_realizes (g : Graph) (root : String) :
    ∀ (fuel : Nat) (c : String) (d : Nat) (vis : List String) (M : Nat),
      (c ∉ vis → ∃ p, p.head? = some root ∧ p.getLast? = some c ∧ p.Nodup
        ∧ IsDepChain g p ∧ p.length = d + 1 ∧ ∀ x ∈ p, x ∈ vis ∨ x = c) →
      Realizes g root M →
      Realizes g root ((g.dfsDepth fuel c d (vis, M)).2) := by
  intro fuel
  induction fuel with
  | zero => intro c d vis M _ hM; rw [dfsDepth_zero]; exact hM
  | succ n ih =>
    intro c d vis M hpre hM
    rw [dfsDepth_succ]
    by_cases hc : c ∈ vis
    · rw [if_pos hc]; exact hM
    · rw [if_neg hc]
      obtain ⟨p, hhead, hlast, hnodup, hchain, hlen, hsub⟩ := hpre hc
      have hMd : Realizes g root (max M d) := by
        rcases Nat.le_total M d with hmd | hmd
        · rw [max_eq_right hmd]
          exact ⟨p, hhead, hnodup, hchain, hlen⟩
        · rw [max_eq_left hmd]
          exact hM
      have hpvis : ∀ x ∈ p, x ∈ vis ++ [c] := by
        intro x hx
        rcases hsub x hx with hv | rfl
        · exact List.mem_append.2 (Or.inl hv)
        · exact List.mem_append.2 (Or.inr (List.mem_singleton.2 rfl))
      have hfold : ∀ (l : List String), (∀ dep ∈ l, dep ∈ g.getDependencies c) →
          ∀ (sv : List String) (sM : Nat),
            (∀ x ∈ p, x ∈ sv) →
            Realizes g root sM →
            Realizes g root
              ((l.foldl (fun st depId => g.dfsDepth n depId (d + 1) st) (sv, sM)).2) := by
        intro l
        induction l with
        | nil => intro _ sv sM _ h; exact h
        | cons x xs ihl =>
          intro hl sv sM hpsub hsM
          rw [List.foldl_cons]
          have hx : x ∈ g.getDependencies c := hl x (List.mem_cons_self x xs)
          have hstep : Realizes g root ((g.dfsDepth n x (d + 1) (sv, sM)).2) := by
            apply ih x (d + 1) sv sM ?_ hsM
            intro hxv
            have hxp : x ∉ p := fun hxp => hxv (hpsub x hxp)
            have hpne : p ≠ [] := by
              intro hnil
              rw [hnil] at hhead
              cases hhead
            refine ⟨p ++ [x], ?_, ?_, nodup_concat hnodup hxp, ?_, ?_, ?_⟩
            · cases p with
              | nil => exact absurd rfl hpne
              | cons a p' => simpa using hhead
            · rw [List.getLast?_concat]
            · rw [IsDepChain, List.chain'_append]
              refine ⟨hchain, List.chain'_singleton x, ?_⟩
              intro a ha b hb
              rw [hlast] at ha
              injection ha with ha
              rw [List.head?_cons] at hb
              injection hb with hb
              rw [← ha, ← hb]
              exact hx
            · rw [List.length_append, hlen]
              rfl
            · intro y hy
              rcases List.mem_append.1 hy with hyp | hyx
              · exact Or.inl (hpsub y hyp)
              · exact Or.inr (List.mem_singleton.1 hyx)
          have hmono := dfsDepth_visited_mono g n x (d + 1) (sv, sM)
          exact ihl (fun dep hdep => hl dep (List.mem_cons_of_mem x hdep))
            (g.dfsDepth n x (d + 1) (sv, sM)).1 (g.dfsDepth n x (d + 1) (sv, sM)).2
            (fun y hy => hmono (hpsub y hy)) hstep
      exact hfold (g.getDependencies c) (fun dep hdep => hdep) (vis ++ [c]) (max M d)
        hpvis hMd

/-- The universe list contains every dependency of every stored node. -/
theorem depUniverse_closed (g : Graph) (nodeId : String) :
    ∀ p ∈ g.nodes, ∀ dep ∈ p.2.dependencies, dep ∈ g.depUniverse nodeId := by
  intro p hp dep hdep
  unfold Graph.depUniverse
  rw [foldl_append_eq_join]
  refine List.mem_cons_of_mem _ ?_
  rw [List.nil_append, List.mem_flatten]
  exact ⟨p.2.dependencies, List.mem_map.2 ⟨p, hp, rfl⟩, hdep⟩

/-- C7.  The depth-first dependency walk terminates — any fuel of at least
`|depUniverse| + 1` (the bound `calculateDependencyDepth` uses) yields the
same result, because each proceeding call marks a fresh node visited — and
the returned depth is realized by a duplicate-free dependency chain from
the node, so it is at most the length of the longest such chain (the true
longest chain on trees, possibly smaller with diamonds or cycles). -/
theorem calculateDependencyDepth_spec (g : Graph) (nodeId : String) :
    (∀ fuel, (g.depUniverse nodeId).length + 1 ≤ fuel →
        (g.dfsDepth fuel nodeId 0 ([], 0)).2 = g.calculateDependencyDepth nodeId)
    ∧ ∃ p : List String, p.head? = some nodeId ∧ p.Nodup ∧ IsDepChain g p
        ∧ p.length = g.calculateDependencyDepth nodeId + 1 := by
  constructor
  · intro fuel hfuel
    unfold Graph.calculateDependencyDepth
    have hcard : (((g.depUniverse nodeId).toFinset) \ (([] : List String).toFinset)).card
        ≤ (g.depUniverse nodeId).length := by
      calc _ ≤ (g.depUniverse nodeId).toFinset.card :=
            Finset.card_le_card Finset.sdiff_subset
        _ ≤ (g.depUniverse nodeId).length := List.toFinset_card_le _
    rw [dfsDepth_fuel_stable g (g.depUniverse nodeId) (depUniverse_closed g nodeId)
      fuel ((g.depUniverse nodeId).length + 1) nodeId 0 [] 0
      (List.mem_cons_self _ _) (by omega) (by omega)]
  · have hreal := dfsDepth_realizes g nodeId ((g.depUniverse nodeId).length + 1) nodeId 0 [] 0
      (fun _ => ⟨[nodeId], rfl, rfl, List.nodup_singleton _, List.chain'_singleton _, rfl,
        fun x hx => Or.inr (List.mem_singleton.1 hx)⟩)
      ⟨[nodeId], rfl, List.nodup_singleton _, List.chain'_singleton _, rfl⟩
    obtain ⟨p, h1, h2, h3, h4⟩ := hreal
    exact ⟨p, h1, h2, h3, h4⟩

/-- Witness graph for C7: a two-node dependency cycle `A → B → A`. -/
def graphCycle : Graph :=
  ((((Graph.empty.addNode (mkNode "A" "class" 1)).addNode
    (mkNode "B" "class" 1)).addEdge "A" "B" "imports").2.addEdge "B" "A" "imports").2

/-- Witness for C7: on the cyclic graph the walk is fuel-stable (it
terminates despite the cycle) and its result is realized by a simple
dependency chain. -/
theorem calculateDependencyDepth_spec_witness :
    ((graphCycle.dfsDepth ((graphCycle.depUniverse "A").length + 4) "A" 0 ([], 0)).2
        = graphCycle.calculateDependencyDepth "A")
    ∧ ∃ p : List String, p.head? = some "A" ∧ p.Nodup ∧ IsDepChain graphCycle p
        ∧ p.length = graphCycle.calculateDependencyDepth "A" + 1 := by
  have h := calculateDependencyDepth_spec graphCycle "A"
  exact ⟨h.1 _ (by omega), h.2⟩

end CodeGenome
